import Mathlib

/-!
Verification of the pixcel region-meshing core, frame compositor and
timeline builder against their Go sources (`src/pixcel/convert.go`,
`src/pixcel/convert_gif.go`, `src/pixcel/obfuscate.go`).

The embedding is shallow: the pixel grid is modelled as a total function
from coordinates to the 8-bit RGB components that Go's `colorAt` extracts
(`img.At(x,y).RGBA()` shifted to 8 bits); the mutable `visited` mask is a
boolean-valued function updated functionally; `context.Context` is a
function from poll index to the cancellation flag observed by that
`ctx.Err()` call; the `io.Writer` is an explicit list of rendered
documents threaded through the converters.

Each `while`/`for` loop of the source is phrased by structural recursion
on its exact remaining-iteration count (for example `rem = width - (x+w)`
for `expandWidth`), so that the source's bound check `x+w < width` is
exactly `rem ≥ 1` and concrete instances reduce inside the kernel.
-/

namespace Pixcel

/-- The 8-bit RGB components, as extracted by `colorAt`. -/
abbrev Color := Nat × Nat × Nat

/-- A pixel grid: coordinate `(x, y)` to its 8-bit RGB components.
Models the already-decoded `image.Image` seen through `colorAt`. -/
abbrev Img := Nat → Nat → Color

/-- The mutable visited mask `visited[y][x]` of `buildTable`, as a function. -/
abbrev Visited := Nat → Nat → Bool

/-- Model of `colorAt` (convert.go), the 8-bit RGB components of the pixel at (x, y)
(convert.go). In the embedding the grid already stores those components. -/
def colorAt (img : Img) (x y : Nat) : Color := img x y

/-- Loop of `expandWidth` (convert.go): grow `w` while the next column is
within bounds (`rem ≥ 1` with `rem = width - (x+w)`), unvisited on row
`y`, and matches the anchor color. -/
def expandWidthGo (img : Img) (vRow : Nat → Bool) (x y : Nat) (c : Color) :
    Nat → Nat → Nat
  | 0, w => w
  | rem + 1, w =>
    if vRow (x + w) = false ∧ colorAt img (x + w) y = c then
      expandWidthGo img vRow x y c rem (w + 1)
    else
      w

/-- Model of `expandWidth` (convert.go): maximum horizontal span of consecutive
pixels matching the anchor color starting at column `x` on row `y`. -/
def expandWidth (img : Img) (vRow : Nat → Bool) (x y width : Nat)
    (c : Color) : Nat :=
  expandWidthGo img vRow x y c (width - (x + 1)) 1

/-- Model of `rowMatchesColor` (convert.go): every pixel in `[x, x+w)` on row `y`
matches the anchor color. -/
def rowMatchesColor (img : Img) (x y w : Nat) (c : Color) : Bool :=
  (List.range w).all fun dx => decide (colorAt img (x + dx) y = c)

/-- Loop of `expandHeight` (convert.go): grow `h` while the row below is
within bounds (`rem = height - (y+h)`) and its strip `[x, x+w)` matches
the anchor color. -/
def expandHeightGo (img : Img) (x y w : Nat) (c : Color) :
    Nat → Nat → Nat
  | 0, h => h
  | rem + 1, h =>
    if rowMatchesColor img x (y + h) w c = true then
      expandHeightGo img x y w c rem (h + 1)
    else
      h

/-- Model of `expandHeight` (convert.go): how many rows below `y` share the same
color strip of width `w` starting at column `x`. -/
def expandHeight (img : Img) (x y w height : Nat) (c : Color) : Nat :=
  expandHeightGo img x y w c (height - (y + 1)) 1

/-- Model of `markVisited` (convert.go): flag all pixels of the `w × h` block
anchored at `(x, y)` as visited. -/
def markVisited (v : Visited) (x y w h : Nat) : Visited :=
  fun y' x' =>
    if y ≤ y' ∧ y' < y + h ∧ x ≤ x' ∧ x' < x + w then true else v y' x'

/-- An emitted rectangle of the meshing pass, with its anchor coordinate
kept for the analysis (the Go `Cell` keeps only color string and spans). -/
structure MCell where
  x : Nat
  y : Nat
  w : Nat
  h : Nat
  c : Color
deriving DecidableEq

/-- Coordinate `(x', y')` lies in the half-open rectangle of `m`. -/
def cellRect (m : MCell) (x' y' : Nat) : Prop :=
  m.x ≤ x' ∧ x' < m.x + m.w ∧ m.y ≤ y' ∧ y' < m.y + m.h

instance (m : MCell) (x' y' : Nat) : Decidable (cellRect m x' y') := by
  unfold cellRect; infer_instance

/-- Inner `x` loop of `buildTable` (convert.go), `rem = width - x`: scan
row `y`, emitting one `MCell` per unvisited anchor, updating the mask. -/
def meshRowGo (img : Img) (width height y : Nat) :
    Nat → Visited → Nat → List MCell × Visited
  | 0, v, _x => ([], v)
  | rem + 1, v, x =>
    if v y x = true then
      meshRowGo img width height y rem v (x + 1)
    else
      let c := colorAt img x y
      let w := expandWidth img (v y) x y width c
      let hh := expandHeight img x y w height c
      let p := meshRowGo img width height y rem (markVisited v x y w hh) (x + 1)
      (⟨x, y, w, hh, c⟩ :: p.1, p.2)

/-- Outer `y` loop of `buildTable` (convert.go) without context polling,
`rem = height - y`: one cell list per pixel row, threading the mask. -/
def meshRowsGo (img : Img) (width height : Nat) :
    Nat → Visited → Nat → List (List MCell) × Visited
  | 0, v, _y => ([], v)
  | rem + 1, v, y =>
    let p := meshRowGo img width height y width v 0
    let q := meshRowsGo img width height rem p.2 (y + 1)
    (p.1 :: q.1, q.2)

/-- The full meshing pass on a fresh (all-false) visited mask. -/
def meshRows (img : Img) (width height : Nat) : List (List MCell) :=
  (meshRowsGo img width height height (fun _ _ => false) 0).1

/-- All cells emitted by one meshing pass, in emission (raster) order. -/
def allCells (img : Img) (width height : Nat) : List MCell :=
  (meshRows img width height).flatten

/-- The visited mask holds exactly the pixels of the emitted rectangles. -/
def Covers (C : List MCell) (v : Visited) : Prop :=
  ∀ y' x', v y' x' = true ↔ ∃ m ∈ C, cellRect m x' y'

/-- Everything the pass guarantees about one emitted cell, relative to
the list `prev` of cells emitted before it: positive spans, rectangle
inside the grid, monochromaticity, anchor color, disjointness from all
earlier rectangles, and the two greedy maximality facts (width stops at
the bound, a visited column, or a mismatch; height stops at the bound or
a mismatched pixel in the strip below). -/
def CellOK (img : Img) (width height : Nat) (prev : List MCell)
    (m : MCell) : Prop :=
  1 ≤ m.w ∧ 1 ≤ m.h ∧ m.x + m.w ≤ width ∧ m.y + m.h ≤ height ∧
  (∀ x' y', cellRect m x' y' → colorAt img x' y' = m.c) ∧
  m.c = colorAt img m.x m.y ∧
  (∀ p ∈ prev, ∀ x' y', cellRect m x' y' → ¬ cellRect p x' y') ∧
  (m.x + m.w = width ∨ (∃ p ∈ prev, cellRect p (m.x + m.w) m.y) ∨
    colorAt img (m.x + m.w) m.y ≠ m.c) ∧
  (m.y + m.h = height ∨
    ∃ dx, dx < m.w ∧ colorAt img (m.x + dx) (m.y + m.h) ≠ m.c)

/-- An ordered list of emitted cells in which each one is `CellOK`
relative to all cells before it (including an initial prefix `prev`). -/
def GoodCells (img : Img) (width height : Nat) :
    List MCell → List MCell → Prop
  | _, [] => True
  | prev, m :: rest =>
    CellOK img width height prev m ∧
    GoodCells img width height (prev ++ [m]) rest

/-- The sentinel errors surfaced by the converter (errors.go / the
`Err...` values referenced from convert.go and convert_gif.go). -/
inductive GoErr where
  | cancelled
  | invalidDimensions
  | noFrames
deriving DecidableEq

/-- Model of `Cell` (convert.go): one `<td>` block with color string and spans. -/
structure Cell where
  Color : String
  Colspan : Nat
  Rowspan : Nat
deriving DecidableEq

/-- A lowercase hex digit, as produced by Go's `%x`. -/
def hexChar (n : Nat) : Char :=
  if n < 10 then Char.ofNat (48 + n) else Char.ofNat (87 + n)

/-- Two-digit lowercase hex of a byte, as produced by Go's `%02x`. -/
def hex2 (n : Nat) : String :=
  String.mk [hexChar (n / 16 % 16), hexChar (n % 16)]

/-- The cell color string `fmt.Sprintf("#%02x%02x%02x", r8, g8, b8)`
built by `buildTable` (convert.go). -/
def cellColor (c : Color) : String :=
  "#" ++ hex2 c.1 ++ hex2 c.2.1 ++ hex2 c.2.2

/-- The `Cell` literal appended by `buildTable` for one meshed region. -/
def mcellToCell (m : MCell) : Cell :=
  ⟨cellColor m.c, m.w, m.h⟩

/-- A `context.Context` as observed through successive `ctx.Err()` calls:
the flag returned by the `k`-th poll. -/
abbrev Ctx := Nat → Bool

/-- Model of `buildTable`'s outer loop with its cancellation polling (convert.go):
every 10 rows (`y % 10 == 0`) the context is polled, counting polls in
`k`; a cancelled poll aborts with no rows. `rem = height - y`. -/
def buildTableGo (ctx : Ctx) (img : Img) (width height : Nat) :
    Nat → Nat → Visited → Nat → Except GoErr (List (List Cell)) × Nat
  | 0, k, _v, _y => (.ok [], k)
  | rem + 1, k, v, y =>
    if y % 10 = 0 ∧ ctx k = true then
      (.error .cancelled, k + 1)
    else
      let k1 := if y % 10 = 0 then k + 1 else k
      let p := meshRowGo img width height y width v 0
      match buildTableGo ctx img width height rem k1 p.2 (y + 1) with
      | (.ok rest, k') => (.ok (p.1.map mcellToCell :: rest), k')
      | (.error e, k') => (.error e, k')

/-- Model of `buildTable` (convert.go): the meshing pass over a fresh mask, with
cooperative cancellation. The poll counter starts at `k0` (the converter
entry poll is counter 0, so `buildTable` inside `generateHTML` starts at
1). -/
def buildTable (ctx : Ctx) (img : Img) (width height k0 : Nat) :
    Except GoErr (List (List Cell)) × Nat :=
  buildTableGo ctx img width height height k0 (fun _ _ => false) 0

/-- One 8-bit RGBA pixel of an `image.RGBA` canvas (alpha-premultiplied,
as Go's `image/draw` assumes). -/
structure Pix where
  r : Nat
  g : Nat
  b : Nat
  a : Nat
deriving DecidableEq

/-- A full-size RGBA pixel buffer (`image.RGBA`), as a total function;
the owning code tracks its bounds separately. -/
abbrev Canvas := Nat → Nat → Pix

/-- An `image.Rectangle` with non-negative, absolute coordinates (GIF
frame bounds lie inside the logical screen). -/
structure Rect where
  minX : Nat
  minY : Nat
  maxX : Nat
  maxY : Nat
deriving DecidableEq

/-- Model of `(x, y)` lies inside the half-open rectangle `r`. -/
def inRect (r : Rect) (x y : Nat) : Prop :=
  r.minX ≤ x ∧ x < r.maxX ∧ r.minY ≤ y ∧ y < r.maxY

instance (r : Rect) (x y : Nat) : Decidable (inRect r x y) := by
  unfold inRect; infer_instance

/-- One raw GIF frame (`*image.Paletted`): its bounds inside the logical
screen and its pixels (through the palette) in absolute coordinates. -/
structure GifFrame where
  bounds : Rect
  pix : Canvas

/-- The `*gif.GIF` input: logical screen size, raw frames, per-frame
delays in centiseconds (`int`), and raw disposal bytes (2 = Background,
3 = Previous, anything else = none). -/
structure GifData where
  configW : Nat
  configH : Nat
  images : List GifFrame
  delay : List Int
  disposal : List Nat

/-- The fully transparent pixel. -/
def transparentPix : Pix := ⟨0, 0, 0, 0⟩

/-- The freshly allocated canvas (`image.NewRGBA`): all channels zero. -/
def emptyCanvas : Canvas := fun _ _ => transparentPix

/-- Go `image/draw` source-over on one 8-bit channel: channels are
widened to 16 bits (`c16 = c8 * 0x101`), blended as
`(dst16 * (0xffff - srcA16) / 0xffff + src16)`, and narrowed by `>> 8`. -/
def over8 (s d sa : Nat) : Nat :=
  (d * 257 * (65535 - sa * 257) / 65535 + s * 257) / 256

/-- Source-over of one source pixel onto one destination pixel, per the
generic fallback loop of `draw.Draw` with `draw.Over`. -/
def overPix (s d : Pix) : Pix :=
  ⟨over8 s.r d.r s.a, over8 s.g d.g s.a, over8 s.b d.b s.a,
    over8 s.a d.a s.a⟩

/-- Model of `draw.Draw(canvas, frame.Bounds(), frame, frame.Bounds().Min, Over)`
(convert_gif.go): blend the frame over the canvas inside the frame's
bounds clipped to the canvas bounds; the source point equals the
destination point. -/
def drawOver (cw ch : Nat) (canvas : Canvas) (f : GifFrame) : Canvas :=
  fun x y =>
    if x < cw ∧ y < ch ∧ inRect f.bounds x y then
      overPix (f.pix x y) (canvas x y)
    else
      canvas x y

/-- Model of `draw.Draw(canvas, frame.Bounds(), Transparent uniform, Src)`
(convert_gif.go, `DisposalBackground`): clear the frame area. -/
def clearRect (cw ch : Nat) (canvas : Canvas) (r : Rect) : Canvas :=
  fun x y =>
    if x < cw ∧ y < ch ∧ inRect r x y then transparentPix else canvas x y

/-- Canvas size selection of `compositeFrames` (convert_gif.go): the GIF
config size, falling back to the first raw frame's `Bounds().Max` when
either config dimension is zero. The frame-less case cannot be reached:
`ConvertGIF` rejects empty GIFs before compositing. -/
def canvasSize (g : GifData) : Nat × Nat :=
  if g.configW = 0 ∨ g.configH = 0 then
    match g.images with
    | [] => (0, 0)
    | f :: _ => (f.bounds.maxX, f.bounds.maxY)
  else
    (g.configW, g.configH)

/-- The frame loop of `compositeFrames` (convert_gif.go): draw frame `i`
over the persistent canvas, snapshot it, then apply frame `i`'s disposal
(`Background` clears the frame area; `Previous` re-copies snapshot
`i-1`, a no-op when `i = 0`); `prev` carries the last snapshot. -/
def compositeLoop (cw ch : Nat) (disposal : List Nat) :
    List GifFrame → Nat → Canvas → Option Canvas → List Canvas
  | [], _i, _canvas, _prev => []
  | f :: rest, i, canvas, prev =>
    let snapshot := drawOver cw ch canvas f
    let next :=
      if i < disposal.length then
        if disposal.getD i 0 = 2 then
          clearRect cw ch snapshot f.bounds
        else if disposal.getD i 0 = 3 then
          match prev with
          | some pc => pc
          | none => snapshot
        else
          snapshot
      else
        snapshot
    snapshot :: compositeLoop cw ch disposal rest (i + 1) next (some snapshot)

/-- Model of `compositeFrames` (convert_gif.go): canvas size plus one full-size
resolved snapshot per raw frame. -/
def compositeFrames (g : GifData) : Nat × Nat × List Canvas :=
  ((canvasSize g).1, (canvasSize g).2,
    compositeLoop (canvasSize g).1 (canvasSize g).2 g.disposal g.images 0
      emptyCanvas none)

/-- Model of `gifDelay` (convert_gif.go): frame `i`'s delay in seconds; a missing
or non-positive centisecond delay yields the 100 ms default. The `float64`
arithmetic of the source is modelled exactly over `ℚ`. -/
def gifDelay (g : GifData) (i : Nat) : ℚ :=
  if i < g.delay.length ∧ 0 < g.delay.getD i 0 then
    (g.delay.getD i 0 : ℚ) / 100
  else
    1 / 10

/-- The total delay accumulated by `buildAllKeyframes` (convert_gif.go)
over `n` frames. -/
def totalDelay (g : GifData) (n : Nat) : ℚ :=
  ((List.range n).map (gifDelay g)).sum

/-- Model of `gifKeyframe` (convert_gif.go): one CSS `@keyframes` step. The
`Percent` field is rendered as a `"%.4f%%"` string by the source; the
numeric percentage is modelled (markup text is out of scope). -/
structure Keyframe where
  percent : ℚ
  opacity : Nat
deriving DecidableEq

/-- The keyframe list built for frame `i` of `frameCount`
(convert_gif.go): hidden at 0% unless it starts there, shown at its
`onPct`, hidden again at its `offPct` when that is before 100%, and at
100% visible only for the last frame. -/
def keyframesFor (i frameCount : Nat) (onPct offPct : ℚ) : List Keyframe :=
  (if 0 < onPct then [⟨0, 0⟩] else []) ++ [⟨onPct, 1⟩] ++
  (if offPct < 100 then [⟨offPct, 0⟩] else []) ++
  (if i = frameCount - 1 then [⟨100, 1⟩] else [⟨100, 0⟩])

/-- The frame loop of `buildAllKeyframes` (convert_gif.go), threading the
cumulative delay; `rem = frameCount - i`. -/
def buildAllGo (g : GifData) (total : ℚ) (frameCount : Nat) :
    Nat → Nat → ℚ → List (List Keyframe)
  | 0, _i, _cum => []
  | rem + 1, i, cum =>
    keyframesFor i frameCount (cum / total * 100)
      ((cum + gifDelay g i) / total * 100) ::
    buildAllGo g total frameCount rem (i + 1) (cum + gifDelay g i)

/-- Model of `buildAllKeyframes` (convert_gif.go). -/
def buildAllKeyframes (frameCount : Nat) (g : GifData) :
    List (List Keyframe) :=
  if frameCount = 0 then []
  else buildAllGo g (totalDelay g frameCount) frameCount frameCount 0 0

/-- The `[onPct, offPct)` visibility windows computed inside
`buildAllKeyframes`'s loop, one pair per frame, threading the cumulative
delay exactly as the source does. -/
def windowsGo (g : GifData) (total : ℚ) : Nat → Nat → ℚ → List (ℚ × ℚ)
  | 0, _i, _cum => []
  | rem + 1, i, cum =>
    (cum / total * 100, (cum + gifDelay g i) / total * 100) ::
    windowsGo g total rem (i + 1) (cum + gifDelay g i)

/-- The visibility windows of all `n` frames. -/
def gifWindows (g : GifData) (n : Nat) : List (ℚ × ℚ) :=
  windowsGo g (totalDelay g n) n 0 0

/-- The converter configuration (options.go; the obfuscation flag is
referenced from convert_gif.go). -/
structure Config where
  targetWidth : Nat
  targetHeight : Nat
  withHTML : Bool
  htmlTitle : String
  smoothLoad : Bool
  obfuscate : Bool

/-- A decoded static input image with its bounds. -/
structure SrcImage where
  w : Nat
  h : Nat
  pix : Canvas

/-- The external image-scaling collaborator for the static path
(`draw.NearestNeighbor.Scale`, x/image/draw): out of the spec's scope,
modelled as an arbitrary function to the scaled RGB grid. -/
abbrev Scaler := SrcImage → Nat → Nat → Img

/-- The external scaler of the GIF path (`c.scaler.Scale` in
`scaleToSize`): canvas with its size, target size, scaled RGB grid. -/
abbrev GifScaler := Canvas → Nat → Nat → Nat → Nat → Img

/-- Model of `math.Round` for the non-negative values that reach it: round half
away from zero, modelled exactly over `ℚ`. -/
def roundQ (q : ℚ) : Nat :=
  (Int.floor (q + 1 / 2)).toNat

/-- The shared target-dimension computation of `scaleImage` (convert.go)
and `generateGIFHTML` (convert_gif.go): an unset target height is
derived proportionally and clamped up to 1. -/
def targetDims (cfgW cfgH origW origH : Nat) : Nat × Nat :=
  if cfgH = 0 then
    (cfgW, max (roundQ ((origH : ℚ) * cfgW / origW)) 1)
  else
    (cfgW, cfgH)

/-- Model of `templateData` (convert.go): what `tmpl.Execute` renders. -/
structure TemplateData where
  withHTML : Bool
  title : String
  width : Nat
  height : Nat
  rows : List (List Cell)
  smoothLoad : Bool
deriving DecidableEq

/-- Model of `gifFrameData` (convert_gif.go). -/
structure GifFrameData where
  rows : List (List Cell)
  keyframes : List Keyframe
deriving DecidableEq

/-- Model of `gifTemplateData` (convert_gif.go). `TotalDurationCSS` is the
`"%.3fs"` rendering of the accumulated delay; its numeric value is
modelled. -/
structure GifTemplateData where
  withHTML : Bool
  title : String
  width : Nat
  height : Nat
  totalDuration : ℚ
  frames : List GifFrameData
  smoothLoad : Bool
  obfuscate : Bool
deriving DecidableEq

/-- One document written to the `io.Writer` by a template `Execute`
call. The template's textual expansion is out of scope; what is written
is determined by the injected data. -/
inductive Rendered where
  | staticDoc (d : TemplateData)
  | gifDoc (d : GifTemplateData)
deriving DecidableEq

/-- The output `io.Writer`, as the list of documents written to it. -/
abbrev Writer := List Rendered

/-- Observable runs of the algorithmic core inside `generateGIFHTML`:
the `compositeFrames` call and each per-frame meshing (`buildRows`). -/
inductive Event where
  | composite
  | mesh (i : Nat)
deriving DecidableEq

/-- Model of `scaleImage` (convert.go): reject zero-sized sources, then scale to
the target dimensions. -/
def scaleImage (cfg : Config) (scaler : Scaler) (src : SrcImage) :
    Except GoErr (Nat × Nat × Img) :=
  if src.w = 0 ∨ src.h = 0 then
    .error .invalidDimensions
  else
    .ok ((targetDims cfg.targetWidth cfg.targetHeight src.w src.h).1,
      (targetDims cfg.targetWidth cfg.targetHeight src.w src.h).2,
      scaler src (targetDims cfg.targetWidth cfg.targetHeight src.w src.h).1
        (targetDims cfg.targetWidth cfg.targetHeight src.w src.h).2)

/-- Model of `generateHTML` (convert.go): entry cancellation poll (poll 0), scale,
mesh (`buildTable`, polling from counter 1), then one `tmpl.Execute`
appending the rendered document to the writer. Every error path leaves
the writer untouched. `Convert`'s nil-argument guards have no
counterpart for the embedding's total values. -/
def generateHTML (ctx : Ctx) (cfg : Config) (scaler : Scaler)
    (src : SrcImage) (w0 : Writer) : Except GoErr Unit × Writer :=
  if ctx 0 = true then
    (.error .cancelled, w0)
  else
    match scaleImage cfg scaler src with
    | .error e => (.error e, w0)
    | .ok (tw, th, img) =>
      match buildTable ctx img tw th 1 with
      | (.ok rows, _) =>
        (.ok (), w0 ++ [.staticDoc
          ⟨cfg.withHTML, cfg.htmlTitle, tw, th, rows, cfg.smoothLoad⟩])
      | (.error e, _) => (.error e, w0)

/-- The per-frame loop of `generateGIFHTML` (convert_gif.go): every 5
frames the context is polled (threading the poll counter `k` through the
meshing as well); each frame is scaled and meshed (`buildRows`), with a
`mesh` event recorded when its meshing starts. -/
def gifFrameLoop (ctx : Ctx) (scaler : GifScaler) (cw ch tw th : Nat)
    (allKeyframes : List (List Keyframe)) :
    List Canvas → Nat → Nat → Except GoErr (List GifFrameData) × Nat × List Event
  | [], _i, k => (.ok [], k, [])
  | snap :: rest, i, k =>
    if i % 5 = 0 ∧ ctx k = true then
      (.error .cancelled, k + 1, [])
    else
      let k1 := if i % 5 = 0 then k + 1 else k
      match buildTable ctx (scaler snap cw ch tw th) tw th k1 with
      | (.error e, k2) => (.error e, k2, [Event.mesh i])
      | (.ok rows, k2) =>
        match gifFrameLoop ctx scaler cw ch tw th allKeyframes rest (i + 1) k2 with
        | (.ok frames, k3, evs) =>
          (.ok (⟨rows, allKeyframes.getD i []⟩ :: frames), k3,
            Event.mesh i :: evs)
        | (.error e, k3, evs) => (.error e, k3, Event.mesh i :: evs)

/-- Model of `generateGIFHTML` (convert_gif.go): entry poll, composite all frames,
check the canvas size, build keyframes, run the frame loop, then one
`gifTmpl.Execute`. The loop's accumulated `cumulativeDelay` on the
success path equals `totalDelay` over all frames. The title's
`html.EscapeString` is cosmetic and out of scope. -/
def generateGIFHTML (ctx : Ctx) (cfg : Config) (scaler : GifScaler)
    (g : GifData) (w0 : Writer) : Except GoErr Unit × Writer × List Event :=
  if ctx 0 = true then
    (.error .cancelled, w0, [])
  else
    let comp := compositeFrames g
    if comp.1 = 0 ∨ comp.2.1 = 0 then
      (.error .invalidDimensions, w0, [Event.composite])
    else
      match gifFrameLoop ctx scaler comp.1 comp.2.1
          (targetDims cfg.targetWidth cfg.targetHeight comp.1 comp.2.1).1
          (targetDims cfg.targetWidth cfg.targetHeight comp.1 comp.2.1).2
          (buildAllKeyframes comp.2.2.length g) comp.2.2 0 1 with
      | (.ok frames, _, evs) =>
        (.ok (), w0 ++ [.gifDoc ⟨cfg.withHTML, cfg.htmlTitle,
          (targetDims cfg.targetWidth cfg.targetHeight comp.1 comp.2.1).1,
          (targetDims cfg.targetWidth cfg.targetHeight comp.1 comp.2.1).2,
          totalDelay g comp.2.2.length, frames, cfg.smoothLoad,
          cfg.obfuscate⟩], Event.composite :: evs)
      | (.error e, _, evs) => (.error e, w0, Event.composite :: evs)

/-- Model of `ConvertGIF` (convert_gif.go) without the pointer-nil guards, which
have no counterpart for the embedding's total values: reject frame-less
GIFs, then generate. -/
def convertGIF (ctx : Ctx) (cfg : Config) (scaler : GifScaler)
    (g : GifData) (w0 : Writer) : Except GoErr Unit × Writer × List Event :=
  if g.images.isEmpty then
    (.error .noFrames, w0, [])
  else
    generateGIFHTML ctx cfg scaler g w0

/-- The stream of 64-bit values delivered by successive `crypto/rand`
reads of `randIntn` (obfuscate.go): draw index to value. Two process
runs see two unrelated streams. -/
abbrev Entropy := Nat → Nat

/-- Model of `randIntn` (obfuscate.go): next 8 random bytes as a little-endian
`uint64`, reduced mod `n`; non-positive `n` returns 0 without reading.
Returns the value and the advanced stream position. -/
def randIntn (e : Entropy) (pos n : Nat) : Nat × Nat :=
  if n = 0 then
    (0, pos)
  else
    (e pos % 2 ^ 64 % n, pos + 1)

/-- An uppercase hex digit, as produced by Go's `%X`. -/
def hexCharUpper (n : Nat) : Char :=
  if n < 10 then Char.ofNat (48 + n) else Char.ofNat (55 + n)

/-- Two-digit uppercase hex of a byte (`%02X`). -/
def hex2Upper (n : Nat) : String :=
  String.mk [hexCharUpper (n / 16 % 16), hexCharUpper (n % 16)]

/-- The digit table of `hexByte` (obfuscate.go). -/
def hexDigits : List Char :=
  ("0123456789abcdef0123456789ABCDEF").data

/-- Model of `hexByte` (obfuscate.go): two hex digits of a byte with independently
randomised case per nibble. -/
def hexByte (e : Entropy) (pos v : Nat) : String × Nat :=
  let r1 := randIntn e pos 2
  let r2 := randIntn e r1.2 2
  (String.mk [hexDigits.getD (r1.1 * 16 + v / 16 % 16) (Char.ofNat 32),
    hexDigits.getD (r2.1 * 16 + v % 16) (Char.ofNat 32)], r2.2)

/-- The character loop of `randomizeCase` (obfuscate.go). -/
def randomizeCaseGo (e : Entropy) : List Char → Nat → String × Nat
  | [], pos => ("", pos)
  | ch :: rest, pos =>
    let r := randIntn e pos 2
    let q := randomizeCaseGo e rest r.2
    ((if r.1 = 0 then String.mk [ch.toUpper] else String.mk [ch.toLower])
      ++ q.1, q.2)

/-- Model of `randomizeCase` (obfuscate.go): each character upper- or lower-cased
by a coin flip. -/
def randomizeCase (e : Entropy) (s : String) (pos : Nat) : String × Nat :=
  randomizeCaseGo e s.data pos

/-- Model of `rgbToHSL` (obfuscate.go), with the source's `float64` arithmetic
modelled exactly over `ℚ`; the final `int(...)` casts truncate the
non-negative values, i.e. floor. -/
def rgbToHSL (r g b : Nat) : Nat × Nat × Nat :=
  let rf : ℚ := (r : ℚ) / 255
  let gf : ℚ := (g : ℚ) / 255
  let bf : ℚ := (b : ℚ) / 255
  let maxC := max rf (max gf bf)
  let minC := min rf (min gf bf)
  let l := (maxC + minC) / 2
  let d := maxC - minC
  if d = 0 then
    (0, 0, (Int.floor (l * 100)).toNat)
  else
    let s := if 1 / 2 < l then d / (2 - maxC - minC) else d / (maxC + minC)
    let h0 :=
      if maxC = rf then
        (if gf < bf then (gf - bf) / d + 6 else (gf - bf) / d)
      else if maxC = gf then
        (bf - rf) / d + 2
      else
        (rf - gf) / d + 4
    ((Int.floor (h0 / 6 * 360)).toNat, (Int.floor (s * 100)).toNat,
      (Int.floor (l * 100)).toNat)

/-- Strip trailing zero digits (`%g` removes trailing zeros). -/
def dropTrailingZeros (l : List Char) : List Char :=
  (l.reverse.dropWhile (fun ch => ch.toNat = 48)).reverse

/-- The decimal digit character of `n % 10`. -/
def natDigit (n : Nat) : Char := Char.ofNat (48 + n % 10)

/-- Go's `"%.3g"` of `float64(a) / 255` for a byte `a`, computed exactly:
three significant digits, round half to even, trailing zeros removed.
For every `a` in 0..255 the exact rational rounds identically to the
`float64` the source formats, because `a/255` is never within the
binary-rounding error of a decimal midpoint. -/
def g3Of255 (a : Nat) : String :=
  if a = 0 then
    ("0")
  else if 255 ≤ a then
    ("1")
  else
    let e := if 25500 ≤ a * 1000 then 3 else if 25500 ≤ a * 10000 then 4 else 5
    let num := a * 10 ^ e
    let q := num / 255
    let rr := num % 255
    let m :=
      if 255 < 2 * rr then q + 1
      else if 2 * rr < 255 then q
      else if q % 2 = 0 then q else q + 1
    let me := if m = 1000 then (100, e - 1) else (m, e)
    let ds := List.replicate (me.2 - 3) (Char.ofNat 48) ++
      [natDigit (me.1 / 100), natDigit (me.1 / 10), natDigit me.1]
    ("0.") ++ String.mk (dropTrailingZeros ds)

/-- Model of `formatColor` (obfuscate.go): the CSS declaration for one cell.
Plain lowercase hex when not obfuscating; otherwise a random choice of
notation for the value and a random casing of the property name,
consuming the entropy stream in source order (value first, then
property). -/
def formatColor (r g b a : Nat) (obfuscate : Bool) (e : Entropy)
    (pos : Nat) : String × Nat :=
  if obfuscate = false then
    (if a = 255 then
      ("background-color:#") ++ hex2 r ++ hex2 g ++ hex2 b
    else
      ("background-color:#") ++ hex2 r ++ hex2 g ++ hex2 b ++ hex2 a, pos)
  else
    let choice := randIntn e pos 5
    let cv : String × Nat :=
      if choice.1 = 0 then
        (("#") ++ hex2 r ++ hex2 g ++ hex2 b ++ hex2 a, choice.2)
      else if choice.1 = 1 then
        (("#") ++ hex2Upper r ++ hex2Upper g ++ hex2Upper b ++ hex2Upper a,
          choice.2)
      else if choice.1 = 2 then
        let h1 := hexByte e choice.2 r
        let h2 := hexByte e h1.2 g
        let h3 := hexByte e h2.2 b
        let h4 := hexByte e h3.2 a
        (("#") ++ h1.1 ++ h2.1 ++ h3.1 ++ h4.1, h4.2)
      else if choice.1 = 3 then
        (("rgba(") ++ toString r ++ (",") ++ toString g ++ (",") ++
          toString b ++ (",") ++ g3Of255 a ++ (")"), choice.2)
      else
        (("hsla(") ++ toString (rgbToHSL r g b).1 ++ (",") ++
          toString (rgbToHSL r g b).2.1 ++ ("%,") ++
          toString (rgbToHSL r g b).2.2 ++ ("%,") ++ g3Of255 a ++ (")"),
          choice.2)
    let prop := randomizeCase e ("background-color") cv.2
    (prop.1 ++ (":") ++ cv.1, prop.2)

/-- The RGB view of an RGBA canvas, as `colorAt` extracts it. -/
def rgbOf (img4 : Canvas) : Img :=
  fun x y => ((img4 x y).r, (img4 x y).g, (img4 x y).b)

/-- Modelled from the spec: the five-argument
`buildTable(ctx, img, width, height, c.obfuscate)` called by `buildRows`
(convert_gif.go) is not among the sources; per that call site and
`formatColor`'s documentation ("returns a CSS color value string for a
pixel cell", obfuscate.go), it runs the §4.1 meshing pass and formats
each emitted cell's color with `formatColor` at the cell's anchor pixel,
consuming the entropy stream cell by cell in emission order. This folds
the per-cell formatting over one row's cells. -/
def obfCells (img4 : Canvas) (obf : Bool) (e : Entropy) :
    List MCell → Nat → List Cell × Nat
  | [], pos => ([], pos)
  | m :: rest, pos =>
    let fc := formatColor (img4 m.x m.y).r (img4 m.x m.y).g (img4 m.x m.y).b
      (img4 m.x m.y).a obf e pos
    let q := obfCells img4 obf e rest fc.2
    (⟨fc.1, m.w, m.h⟩ :: q.1, q.2)

/-- Modelled from the spec: row fold of the obfuscating `buildTable`,
threading the entropy position across rows. -/
def obfRows (img4 : Canvas) (obf : Bool) (e : Entropy) :
    List (List MCell) → Nat → List (List Cell) × Nat
  | [], pos => ([], pos)
  | row :: rest, pos =>
    let p := obfCells img4 obf e row pos
    let q := obfRows img4 obf e rest p.2
    (p.1 :: q.1, q.2)

/-- Modelled from the spec: the five-argument `buildTable` of the GIF
path (missing from the sources; see `obfCells`): the meshing pass of
convert.go with each cell's color string produced by `formatColor`. -/
def buildTableObf (img4 : Canvas) (width height : Nat) (obf : Bool)
    (e : Entropy) : List (List Cell) :=
  (obfRows img4 obf e (meshRows (rgbOf img4) width height) 0).1

instance {ε α : Type} [DecidableEq ε] [DecidableEq α] :
    DecidableEq (Except ε α) := fun a b =>
  match a, b with
  | .ok x, .ok y =>
    if h : x = y then isTrue (by rw [h]) else isFalse (by simp [h])
  | .ok _, .error _ => isFalse (by simp)
  | .error _, .ok _ => isFalse (by simp)
  | .error e1, .error e2 =>
    if h : e1 = e2 then isTrue (by rw [h]) else isFalse (by simp [h])

/-- The never-cancelled context. -/
def ctxFree : Ctx := fun _ => false

/-- The context observed cancelled at every poll. -/
def ctxCancelled : Ctx := fun _ => true

/-- A uniform dark-gray 5×5 example grid. -/
def constImg7 : Img := fun _ _ => (7, 7, 7)

/-- A 2×2 grid with four distinct colors. -/
def img2x2 : Img := fun x y => (x % 256, y % 256, 0)

/-- A 1×1 opaque-red raw frame on a 1×1 screen. -/
def redFrame : GifFrame := ⟨⟨0, 0, 1, 1⟩, fun _ _ => ⟨255, 0, 0, 255⟩⟩

/-- A 1×1 fully transparent raw frame on a 1×1 screen. -/
def clearFrame : GifFrame := ⟨⟨0, 0, 1, 1⟩, fun _ _ => ⟨0, 0, 0, 0⟩⟩

/-- A 2-frame GIF whose frame 0 carries `DisposalPrevious` (3): opaque
red, then a fully transparent frame. -/
def gifPrev2 : GifData := ⟨1, 1, [redFrame, clearFrame], [10, 10], [3, 0]⟩

/-- A 1-frame GIF with no declared screen size whose first frame's own
bounds are empty, so the canvas degenerates to 0×0. -/
def gifZero : GifData :=
  ⟨0, 0, [⟨⟨0, 0, 0, 0⟩, fun _ _ => ⟨0, 0, 0, 0⟩⟩], [10], [0]⟩

/-- A GIF carrying the Scenario D delays [10, 0, 20] centiseconds. -/
def gifDelays3 : GifData := ⟨4, 1, [], [10, 0, 20], []⟩

/-- The all-zeros entropy stream. -/
def entropy0 : Entropy := fun _ => 0

/-- The all-ones entropy stream. -/
def entropy1 : Entropy := fun _ => 1

/-- A 1×1 opaque red canvas. -/
def img1x1 : Canvas := fun _ _ => ⟨255, 0, 0, 255⟩

/-- A small example configuration. -/
def cfgEx : Config := ⟨2, 2, true, ("t"), false, false⟩

/-- A nearest-neighbour-free stand-in scaler: sample the source directly
(adequate for same-size examples). -/
def idScaler : Scaler :=
  fun src _ _ => fun x y => ((src.pix x y).r, (src.pix x y).g, (src.pix x y).b)

/-- A stand-in GIF scaler sampling the canvas directly. -/
def idGifScaler : GifScaler :=
  fun canvas _ _ _ _ =>
    fun x y => ((canvas x y).r, (canvas x y).g, (canvas x y).b)

/-- A 2×2 source image built from `img2x2`. -/
def srcImg2 : SrcImage :=
  ⟨2, 2, fun x y => ⟨x % 256, y % 256, 0, 255⟩⟩

/-- Loop invariantization of `expandWidth`'s scan: the result extends the
strip of unvisited, color-matching columns and stops at the bound or at
the first visited or mismatched column. -/
lemma expandWidthGo_spec (img : Img) (vRow : Nat → Bool) (x y : Nat)
    (c : Color) :
    ∀ rem w, 1 ≤ w →
    (∀ j, 1 ≤ j → j < w → vRow (x + j) = false ∧ colorAt img (x + j) y = c) →
    w ≤ expandWidthGo img vRow x y c rem w ∧
    expandWidthGo img vRow x y c rem w ≤ w + rem ∧
    (∀ j, 1 ≤ j → j < expandWidthGo img vRow x y c rem w →
      vRow (x + j) = false ∧ colorAt img (x + j) y = c) ∧
    (expandWidthGo img vRow x y c rem w = w + rem ∨
      vRow (x + expandWidthGo img vRow x y c rem w) = true ∨
      colorAt img (x + expandWidthGo img vRow x y c rem w) y ≠ c) := by
  intro rem
  induction rem with
  | zero =>
    intro w hw hpre
    simp only [expandWidthGo]
    exact ⟨le_refl _, by omega, hpre, Or.inl (by omega)⟩
  | succ rem ih =>
    intro w hw hpre
    simp only [expandWidthGo]
    by_cases hg : vRow (x + w) = false ∧ colorAt img (x + w) y = c
    · rw [if_pos hg]
      have hpre' : ∀ j, 1 ≤ j → j < w + 1 →
          vRow (x + j) = false ∧ colorAt img (x + j) y = c := by
        intro j h1 h2
        rcases Nat.lt_or_ge j w with h | h
        · exact hpre j h1 h
        · have hjw : j = w := by omega
          subst hjw
          exact hg
      obtain ⟨a1, a2, a3, a4⟩ := ih (w + 1) (by omega) hpre'
      refine ⟨by omega, by omega, a3, ?_⟩
      rcases a4 with h | h
      · left; omega
      · right; exact h
    · rw [if_neg hg]
      refine ⟨le_refl _, by omega, hpre, ?_⟩
      right
      by_cases hv : vRow (x + w) = false
      · right; intro hc; exact hg ⟨hv, hc⟩
      · left; simpa using hv

/-- Specification of `expandWidth` at an anchor inside the row. -/
lemma expandWidth_spec (img : Img) (vRow : Nat → Bool) (x y width : Nat)
    (c : Color) (hx : x < width) :
    1 ≤ expandWidth img vRow x y width c ∧
    x + expandWidth img vRow x y width c ≤ width ∧
    (∀ j, 1 ≤ j → j < expandWidth img vRow x y width c →
      vRow (x + j) = false ∧ colorAt img (x + j) y = c) ∧
    (x + expandWidth img vRow x y width c = width ∨
      vRow (x + expandWidth img vRow x y width c) = true ∨
      colorAt img (x + expandWidth img vRow x y width c) y ≠ c) := by
  obtain ⟨a1, a2, a3, a4⟩ :=
    expandWidthGo_spec img vRow x y c (width - (x + 1)) 1 (le_refl 1)
      (fun j h1 h2 => absurd h2 (Nat.not_lt.mpr h1))
  unfold expandWidth
  refine ⟨a1, by omega, a3, ?_⟩
  rcases a4 with h | h
  · left; omega
  · right; exact h

/-- Model of `rowMatchesColor` decides the pointwise color condition on a strip. -/
lemma rowMatchesColor_iff (img : Img) (x y w : Nat) (c : Color) :
    rowMatchesColor img x y w c = true ↔
      ∀ dx, dx < w → colorAt img (x + dx) y = c := by
  simp [rowMatchesColor, List.all_eq_true, List.mem_range]

/-- Loop invariantization of `expandHeight`'s scan. -/
lemma expandHeightGo_spec (img : Img) (x y w : Nat) (c : Color) :
    ∀ rem h, 1 ≤ h →
    (∀ i, 1 ≤ i → i < h → rowMatchesColor img x (y + i) w c = true) →
    h ≤ expandHeightGo img x y w c rem h ∧
    expandHeightGo img x y w c rem h ≤ h + rem ∧
    (∀ i, 1 ≤ i → i < expandHeightGo img x y w c rem h →
      rowMatchesColor img x (y + i) w c = true) ∧
    (expandHeightGo img x y w c rem h = h + rem ∨
      rowMatchesColor img x (y + expandHeightGo img x y w c rem h) w c = false) := by
  intro rem
  induction rem with
  | zero =>
    intro h hh hpre
    simp only [expandHeightGo]
    exact ⟨le_refl _, by omega, hpre, Or.inl (by omega)⟩
  | succ rem ih =>
    intro h hh hpre
    simp only [expandHeightGo]
    by_cases hg : rowMatchesColor img x (y + h) w c = true
    · rw [if_pos hg]
      have hpre' : ∀ i, 1 ≤ i → i < h + 1 →
          rowMatchesColor img x (y + i) w c = true := by
        intro i h1 h2
        rcases Nat.lt_or_ge i h with hlt | hge
        · exact hpre i h1 hlt
        · have hih : i = h := by omega
          subst hih
          exact hg
      obtain ⟨a1, a2, a3, a4⟩ := ih (h + 1) (by omega) hpre'
      refine ⟨by omega, by omega, a3, ?_⟩
      rcases a4 with hc | hc
      · left; omega
      · right; exact hc
    · rw [if_neg hg]
      refine ⟨le_refl _, by omega, hpre, ?_⟩
      right
      simpa using hg

/-- Specification of `expandHeight` at an anchor inside the grid. -/
lemma expandHeight_spec (img : Img) (x y w height : Nat) (c : Color)
    (hy : y < height) :
    1 ≤ expandHeight img x y w height c ∧
    y + expandHeight img x y w height c ≤ height ∧
    (∀ i, 1 ≤ i → i < expandHeight img x y w height c →
      ∀ dx, dx < w → colorAt img (x + dx) (y + i) = c) ∧
    (y + expandHeight img x y w height c = height ∨
      ∃ dx, dx < w ∧
        colorAt img (x + dx) (y + expandHeight img x y w height c) ≠ c) := by
  obtain ⟨a1, a2, a3, a4⟩ :=
    expandHeightGo_spec img x y w c (height - (y + 1)) 1 (le_refl 1)
      (fun i h1 h2 => absurd h2 (Nat.not_lt.mpr h1))
  unfold expandHeight
  refine ⟨a1, by omega, ?_, ?_⟩
  · intro i h1 h2 dx hdx
    exact (rowMatchesColor_iff img x (y + i) w c).mp (a3 i h1 h2) dx hdx
  · rcases a4 with h | h
    · left; omega
    · right
      have hnot : ¬ ∀ dx, dx < w →
          colorAt img (x + dx) (y + expandHeight img x y w height c) = c := by
        rw [← rowMatchesColor_iff]
        simp [expandHeight, h]
      push_neg at hnot
      obtain ⟨dx, hdx, hne⟩ := hnot
      exact ⟨dx, hdx, hne⟩

/-- Chaining `GoodCells` across an appended pair of lists. -/
lemma GoodCells.append (img : Img) (width height : Nat) :
    ∀ l1 l2 prev, GoodCells img width height prev l1 →
    GoodCells img width height (prev ++ l1) l2 →
    GoodCells img width height prev (l1 ++ l2) := by
  intro l1
  induction l1 with
  | nil =>
    intro l2 prev _ h2
    simpa using h2
  | cons m rest ih =>
    intro l2 prev h1 h2
    obtain ⟨hm, hrest⟩ := h1
    refine ⟨hm, ih l2 (prev ++ [m]) hrest ?_⟩
    have : prev ++ [m] ++ rest = prev ++ m :: rest := by simp
    rw [this]
    exact h2

/-- The per-cell facts of `CellOK` that do not mention the prefix. -/
lemma GoodCells.mem_basic (img : Img) (width height : Nat) :
    ∀ l prev, GoodCells img width height prev l → ∀ m ∈ l,
    1 ≤ m.w ∧ 1 ≤ m.h ∧ m.x + m.w ≤ width ∧ m.y + m.h ≤ height ∧
    (∀ x' y', cellRect m x' y' → colorAt img x' y' = m.c) ∧
    m.c = colorAt img m.x m.y := by
  intro l
  induction l with
  | nil => intro prev _ m hm; simp at hm
  | cons a rest ih =>
    intro prev hg m hm
    obtain ⟨ha, hrest⟩ := hg
    rcases List.mem_cons.mp hm with rfl | hm'
    · exact ⟨ha.1, ha.2.1, ha.2.2.1, ha.2.2.2.1, ha.2.2.2.2.1, ha.2.2.2.2.2.1⟩
    · exact ih (prev ++ [a]) hrest m hm'

/-- Every cell of a good list avoids every cell of its initial prefix. -/
lemma GoodCells.disjoint_prefix (img : Img) (width height : Nat) :
    ∀ l prev, GoodCells img width height prev l → ∀ p ∈ prev, ∀ m ∈ l,
    ∀ x' y', cellRect m x' y' → ¬ cellRect p x' y' := by
  intro l
  induction l with
  | nil => intro prev _ p _ m hm; simp at hm
  | cons a rest ih =>
    intro prev hg p hp m hm
    obtain ⟨ha, hrest⟩ := hg
    rcases List.mem_cons.mp hm with rfl | hm'
    · exact ha.2.2.2.2.2.2.1 p hp
    · exact ih (prev ++ [a]) hrest p (by simp [hp]) m hm'

/-- The rectangles of a good list are pairwise disjoint. -/
lemma GoodCells.pairwise_disjoint (img : Img) (width height : Nat) :
    ∀ l prev, GoodCells img width height prev l →
    List.Pairwise
      (fun a b => ∀ x' y', ¬ (cellRect a x' y' ∧ cellRect b x' y')) l := by
  intro l
  induction l with
  | nil => intro prev _; exact List.Pairwise.nil
  | cons a rest ih =>
    intro prev hg
    obtain ⟨_, hrest⟩ := hg
    refine List.Pairwise.cons ?_ (ih (prev ++ [a]) hrest)
    intro b hb x' y' hab
    exact GoodCells.disjoint_prefix img width height rest (prev ++ [a])
      hrest a (by simp) b hb x' y' hab.2 hab.1

/-- Indexed access to the chained `CellOK` facts of a good list. -/
lemma GoodCells.get_ok (img : Img) (width height : Nat) :
    ∀ l prev, GoodCells img width height prev l →
    ∀ i (hi : i < l.length),
    CellOK img width height (prev ++ l.take i) (l.get ⟨i, hi⟩) := by
  intro l
  induction l with
  | nil => intro prev _ i hi; simp at hi
  | cons a rest ih =>
    intro prev hg i hi
    obtain ⟨ha, hrest⟩ := hg
    match i with
    | 0 => simpa using ha
    | Nat.succ j =>
      have hj : j < rest.length := by
        simpa [Nat.succ_lt_succ_iff] using hi
      have := ih (prev ++ [a]) hrest j hj
      simpa [List.take_succ_cons, List.append_assoc] using this

/-- The modelled `markVisited` only turns bits on. -/
lemma markVisited_mono (v : Visited) (x y w h y' x' : Nat)
    (hv : v y' x' = true) : markVisited v x y w h y' x' = true := by
  simp only [markVisited]
  split <;> simp [hv]

/-- Emitting a cell at an unvisited anchor preserves the pass invariant:
given the facts established by `expandWidth` and `expandHeight` about the
spans `w` and `hh`, the new cell is `CellOK` relative to everything
emitted so far, and the updated mask covers exactly the old cells plus
the new rectangle. -/
lemma emit_ok (img : Img) (width height : Nat) (C : List MCell)
    (v : Visited) (x y w hh : Nat) (c : Color)
    (hc : c = colorAt img x y)
    (hw1 : 1 ≤ w) (hwle : x + w ≤ width)
    (hwstrip : ∀ j, 1 ≤ j → j < w →
      v y (x + j) = false ∧ colorAt img (x + j) y = c)
    (hwmax : x + w = width ∨ v y (x + w) = true ∨ colorAt img (x + w) y ≠ c)
    (hh1 : 1 ≤ hh) (hhle : y + hh ≤ height)
    (hhstrip : ∀ i, 1 ≤ i → i < hh → ∀ dx, dx < w →
      colorAt img (x + dx) (y + i) = c)
    (hhmax : y + hh = height ∨ ∃ dx, dx < w ∧ colorAt img (x + dx) (y + hh) ≠ c)
    (hcov : Covers C v) (htop : ∀ m ∈ C, m.y ≤ y)
    (hv : v y x = false) :
    CellOK img width height C ⟨x, y, w, hh, c⟩ ∧
    Covers (C ++ [⟨x, y, w, hh, c⟩]) (markVisited v x y w hh) := by
  have hunvis : ∀ j, j < w → v y (x + j) = false := by
    intro j hj
    match j with
    | 0 => simpa using hv
    | Nat.succ j' => exact (hwstrip (j' + 1) (by omega) hj).1
  have hmono : ∀ x' y',
      cellRect ⟨x, y, w, hh, c⟩ x' y' → colorAt img x' y' = c := by
    intro x' y' hr
    obtain ⟨h1, h2, h3, h4⟩ := hr
    dsimp only at h1 h2 h3 h4
    have hx' : x' = x + (x' - x) := by omega
    have hy' : y' = y + (y' - y) := by omega
    rw [hx', hy']
    rcases Nat.eq_zero_or_pos (y' - y) with hi | hi
    · rw [hi]
      rcases Nat.eq_zero_or_pos (x' - x) with hj | hj
      · rw [hj]
        simpa using hc.symm
      · exact (hwstrip (x' - x) hj (by omega)).2
    · exact hhstrip (y' - y) hi (by omega) (x' - x) (by omega)
  have hdisj : ∀ p ∈ C, ∀ x' y',
      cellRect ⟨x, y, w, hh, c⟩ x' y' → ¬ cellRect p x' y' := by
    intro p hp x' y' hr hrp
    obtain ⟨h1, h2, h3, h4⟩ := hr
    dsimp only at h1 h2 h3 h4
    obtain ⟨g1, g2, g3, g4⟩ := hrp
    have hpy : p.y ≤ y := htop p hp
    have hmidrect : cellRect p x' y := ⟨g1, g2, hpy, by omega⟩
    have hvis : v y x' = true := (hcov y x').mpr ⟨p, hp, hmidrect⟩
    have hun := hunvis (x' - x) (by omega)
    rw [show x + (x' - x) = x' by omega] at hun
    rw [hun] at hvis
    exact Bool.false_ne_true hvis
  constructor
  · refine ⟨hw1, hh1, hwle, hhle, hmono, hc, hdisj, ?_, hhmax⟩
    rcases hwmax with h | h | h
    · exact Or.inl h
    · exact Or.inr (Or.inl ((hcov y (x + w)).mp h))
    · exact Or.inr (Or.inr h)
  · intro y' x'
    by_cases hin : y ≤ y' ∧ y' < y + hh ∧ x ≤ x' ∧ x' < x + w
    · simp only [markVisited, if_pos hin, true_iff]
      exact ⟨_, List.mem_append_right C (List.mem_singleton.mpr rfl),
        ⟨hin.2.2.1, hin.2.2.2, hin.1, hin.2.1⟩⟩
    · simp only [markVisited, if_neg hin]
      rw [hcov y' x']
      constructor
      · rintro ⟨m, hm, hr⟩
        exact ⟨m, List.mem_append_left _ hm, hr⟩
      · rintro ⟨m, hm, hr⟩
        rcases List.mem_append.mp hm with hm' | hm'
        · exact ⟨m, hm', hr⟩
        · rw [List.mem_singleton] at hm'
          subst hm'
          obtain ⟨r1, r2, r3, r4⟩ := hr
          dsimp only at r1 r2 r3 r4
          exact absurd ⟨r3, r4, r1, r2⟩ hin

/-- Master invariant of the inner row scan: starting at column `x` with
`rem = width - x` remaining columns, a mask covering exactly the cells
`C` (all anchored at or above row `y`), fully set on rows above `y` and
on row `y` left of `x`, the scan emits a chained-good list of cells
anchored on row `y` with increasing columns, and leaves the mask
covering `C` plus the new cells with all of row `y` set. -/
lemma meshRowGo_spec (img : Img) (width height y : Nat) (hy : y < height) :
    ∀ rem v x C,
    x + rem = width →
    Covers C v →
    (∀ m ∈ C, m.y ≤ y) →
    (∀ x', x' < x → v y x' = true) →
    GoodCells img width height C (meshRowGo img width height y rem v x).1 ∧
    Covers (C ++ (meshRowGo img width height y rem v x).1)
      (meshRowGo img width height y rem v x).2 ∧
    (∀ m ∈ (meshRowGo img width height y rem v x).1, m.y = y ∧ x ≤ m.x) ∧
    List.Pairwise (fun a b => a.x < b.x)
      (meshRowGo img width height y rem v x).1 ∧
    (∀ y' x', v y' x' = true →
      (meshRowGo img width height y rem v x).2 y' x' = true) ∧
    (∀ x', x' < width → (meshRowGo img width height y rem v x).2 y x' = true) := by
  intro rem
  induction rem with
  | zero =>
    intro v x C hrem hcov htop hpref
    simp only [meshRowGo]
    refine ⟨trivial, by simpa using hcov, by simp, List.Pairwise.nil,
      fun y' x' h => h, fun x' hx' => hpref x' (by omega)⟩
  | succ rem ih =>
    intro v x C hrem hcov htop hpref
    have hx : x < width := by omega
    simp only [meshRowGo]
    by_cases hvx : v y x = true
    · rw [if_pos hvx]
      have hpref' : ∀ x', x' < x + 1 → v y x' = true := by
        intro x' hx'
        rcases Nat.lt_or_ge x' x with h | h
        · exact hpref x' h
        · have hxx : x' = x := by omega
          subst hxx
          exact hvx
      obtain ⟨a1, a2, a3, a4, a5, a6⟩ :=
        ih v (x + 1) C (by omega) hcov htop hpref'
      exact ⟨a1, a2, fun m hm => ⟨(a3 m hm).1, by have := (a3 m hm).2; omega⟩,
        a4, a5, a6⟩
    · rw [if_neg hvx]
      have hv : v y x = false := by
        cases hb : v y x
        · rfl
        · exact absurd hb hvx
      obtain ⟨hw1, hwle, hwstrip, hwmax⟩ :=
        expandWidth_spec img (v y) x y width (colorAt img x y) hx
      obtain ⟨hh1, hhle, hhstrip, hhmax⟩ :=
        expandHeight_spec img x y
          (expandWidth img (v y) x y width (colorAt img x y)) height
          (colorAt img x y) hy
      obtain ⟨hok, hcov'⟩ := emit_ok img width height C v x y
        (expandWidth img (v y) x y width (colorAt img x y))
        (expandHeight img x y
          (expandWidth img (v y) x y width (colorAt img x y)) height
          (colorAt img x y))
        (colorAt img x y) rfl hw1 hwle hwstrip hwmax hh1 hhle hhstrip hhmax
        hcov htop hv
      set newc : MCell :=
        ⟨x, y, expandWidth img (v y) x y width (colorAt img x y),
          expandHeight img x y
            (expandWidth img (v y) x y width (colorAt img x y)) height
            (colorAt img x y), colorAt img x y⟩ with hnewc
      set v' : Visited := markVisited v x y
        (expandWidth img (v y) x y width (colorAt img x y))
        (expandHeight img x y
          (expandWidth img (v y) x y width (colorAt img x y)) height
          (colorAt img x y)) with hv'def
      have htop' : ∀ m ∈ C ++ [newc], m.y ≤ y := by
        intro m hm
        rcases List.mem_append.mp hm with h | h
        · exact htop m h
        · rw [List.mem_singleton] at h
          subst h
          exact le_refl y
      have hpref' : ∀ x', x' < x + 1 → v' y x' = true := by
        intro x' hx'
        rcases Nat.lt_or_ge x' x with h | h
        · exact markVisited_mono v x y _ _ y x' (hpref x' h)
        · have hxx : x' = x := by omega
          show markVisited v x y _ _ y x' = true
          simp only [markVisited]
          rw [if_pos ⟨le_refl y, by omega, hxx.ge, by omega⟩]
      obtain ⟨a1, a2, a3, a4, a5, a6⟩ :=
        ih v' (x + 1) (C ++ [newc]) (by omega) hcov' htop' hpref'
      have hmono' : ∀ y' x', v y' x' = true → v' y' x' = true :=
        fun y' x' h => markVisited_mono v x y _ _ y' x' h
      refine ⟨⟨hok, a1⟩, ?_, ?_, ?_, ?_, a6⟩
      · have hassoc : C ++ newc :: (meshRowGo img width height y rem v' (x + 1)).1 =
            (C ++ [newc]) ++ (meshRowGo img width height y rem v' (x + 1)).1 := by
          simp
        rw [hassoc]
        exact a2
      · intro m hm
        rcases List.mem_cons.mp hm with h | h
        · subst h
          exact ⟨rfl, le_refl x⟩
        · exact ⟨(a3 m h).1, by have := (a3 m h).2; omega⟩
      · refine List.Pairwise.cons ?_ a4
        intro b hb
        have := (a3 b hb).2
        have hnx : newc.x = x := rfl
        omega
      · intro y' x' h
        exact a5 y' x' (hmono' y' x' h)

/-- Master invariant of the outer row loop: processing rows `y` to
`height` (with `rem = height - y`) extends the good cell list row by
row and ends with every grid pixel visited. -/
lemma meshRowsGo_spec (img : Img) (width height : Nat) :
    ∀ rem v y C,
    y + rem = height →
    Covers C v →
    (∀ m ∈ C, m.y < y) →
    (∀ y' x', y' < y → x' < width → v y' x' = true) →
    GoodCells img width height C (meshRowsGo img width height rem v y).1.flatten ∧
    Covers (C ++ (meshRowsGo img width height rem v y).1.flatten)
      (meshRowsGo img width height rem v y).2 ∧
    (meshRowsGo img width height rem v y).1.length = rem ∧
    (∀ i (hi : i < (meshRowsGo img width height rem v y).1.length),
      ∀ m ∈ (meshRowsGo img width height rem v y).1.get ⟨i, hi⟩, m.y = y + i) ∧
    (∀ i (hi : i < (meshRowsGo img width height rem v y).1.length),
      List.Pairwise (fun a b => a.x < b.x)
        ((meshRowsGo img width height rem v y).1.get ⟨i, hi⟩)) ∧
    (∀ y' x', y' < height → x' < width →
      (meshRowsGo img width height rem v y).2 y' x' = true) := by
  intro rem
  induction rem with
  | zero =>
    intro v y C hrem hcov htop hrows
    simp only [meshRowsGo]
    refine ⟨trivial, by simpa using hcov, rfl, ?_, ?_, ?_⟩
    · intro i hi
      simp at hi
    · intro i hi
      simp at hi
    · intro y' x' h1 h2
      exact hrows y' x' (by omega) h2
  | succ rem ih =>
    intro v y C hrem hcov htop hrows
    have hy : y < height := by omega
    simp only [meshRowsGo]
    obtain ⟨b1, b2, b3, b4, b5, b6⟩ :=
      meshRowGo_spec img width height y hy width v 0 C (by omega) hcov
        (fun m hm => le_of_lt (htop m hm))
        (fun x' hx' => absurd hx' (Nat.not_lt_zero x'))
    set p := meshRowGo img width height y width v 0 with hp
    have hrows' : ∀ y' x', y' < y + 1 → x' < width → p.2 y' x' = true := by
      intro y' x' h1 h2
      rcases Nat.lt_or_ge y' y with h | h
      · exact b5 y' x' (hrows y' x' h h2)
      · have hyy : y' = y := by omega
        subst hyy
        exact b6 x' h2
    have htop' : ∀ m ∈ C ++ p.1, m.y < y + 1 := by
      intro m hm
      rcases List.mem_append.mp hm with h | h
      · exact Nat.lt_succ_of_lt (htop m h)
      · rw [(b3 m h).1]
        exact Nat.lt_succ_self y
    obtain ⟨a1, a2, a3, a4, a5, a6⟩ :=
      ih p.2 (y + 1) (C ++ p.1) (by omega) b2 htop' hrows'
    set q := meshRowsGo img width height rem p.2 (y + 1) with hq
    refine ⟨?_, ?_, ?_, ?_, ?_, a6⟩
    · show GoodCells img width height C (p.1 :: q.1).flatten
      rw [List.flatten_cons]
      exact GoodCells.append img width height p.1 q.1.flatten C b1 a1
    · show Covers (C ++ (p.1 :: q.1).flatten) q.2
      rw [List.flatten_cons, show C ++ (p.1 ++ q.1.flatten) = (C ++ p.1) ++ q.1.flatten
        by simp]
      exact a2
    · show (p.1 :: q.1).length = rem + 1
      simp [a3]
    · intro i hi m hm
      match i with
      | 0 => simpa using (b3 m (by simpa using hm)).1
      | Nat.succ j =>
        have hj : j < q.1.length := by
          simpa [Nat.succ_lt_succ_iff] using hi
        have := a4 j hj m (by simpa using hm)
        omega
    · intro i hi
      match i with
      | 0 => simpa using b4
      | Nat.succ j =>
        have hj : j < q.1.length := by
          simpa [Nat.succ_lt_succ_iff] using hi
        simpa using a5 j hj

/-- The meshing pass on a fresh mask: chained-good cells, one row list
per pixel row with matching anchors and increasing columns, and full
coverage of the grid. -/
lemma meshRows_master (img : Img) (width height : Nat) :
    GoodCells img width height [] (meshRows img width height).flatten ∧
    (meshRows img width height).length = height ∧
    (∀ i (hi : i < (meshRows img width height).length),
      ∀ m ∈ (meshRows img width height).get ⟨i, hi⟩, m.y = i) ∧
    (∀ i (hi : i < (meshRows img width height).length),
      List.Pairwise (fun a b => a.x < b.x)
        ((meshRows img width height).get ⟨i, hi⟩)) ∧
    (∀ x y, x < width → y < height →
      ∃ m ∈ (meshRows img width height).flatten, cellRect m x y) := by
  obtain ⟨a1, a2, a3, a4, a5, a6⟩ :=
    meshRowsGo_spec img width height height (fun _ _ => false) 0 []
      (by omega) (by intro y' x'; simp) (by simp)
      (by intro y' x' h; omega)
  refine ⟨a1, a3, ?_, a5, ?_⟩
  · intro i hi m hm
    simpa using a4 i hi m hm
  · intro x y hx hyy
    have hv := a6 y x hyy hx
    have := (a2 y x).mp hv
    simpa using this

/-- With an uncancelled context `buildTable`'s loop returns exactly the
per-row cell lists of the meshing pass, mapped to Go `Cell`s. -/
lemma buildTableGo_uncancelled (ctx : Ctx) (img : Img) (width height : Nat)
    (hctx : ∀ k, ctx k = false) :
    ∀ rem k v y, (buildTableGo ctx img width height rem k v y).1 =
      .ok (((meshRowsGo img width height rem v y).1).map
        (List.map mcellToCell)) := by
  intro rem
  induction rem with
  | zero =>
    intro k v y
    simp [buildTableGo, meshRowsGo]
  | succ rem ih =>
    intro k v y
    simp only [buildTableGo, meshRowsGo]
    rw [if_neg (by simp [hctx])]
    rcases hrec : buildTableGo ctx img width height rem
        (if y % 10 = 0 then k + 1 else k)
        (meshRowGo img width height y width v 0).2 (y + 1) with ⟨res, k'⟩
    have hres := ih (if y % 10 = 0 then k + 1 else k)
      (meshRowGo img width height y width v 0).2 (y + 1)
    rw [hrec] at hres
    simp only at hres
    subst hres
    simp [hrec]

/-- If `buildTable`'s loop returns rows at all, they are the meshing
pass's rows mapped to Go `Cell`s (whatever the context did). -/
lemma buildTableGo_ok_inv (ctx : Ctx) (img : Img) (width height : Nat) :
    ∀ rem k v y rows k',
    buildTableGo ctx img width height rem k v y = (.ok rows, k') →
    rows = ((meshRowsGo img width height rem v y).1).map
      (List.map mcellToCell) := by
  intro rem
  induction rem with
  | zero =>
    intro k v y rows k' h
    simp only [buildTableGo] at h
    have h1 : (Except.ok ([] : List (List Cell)) : Except GoErr _) = .ok rows :=
      congrArg Prod.fst h
    simp only [Except.ok.injEq] at h1
    subst h1
    simp [meshRowsGo]
  | succ rem ih =>
    intro k v y rows k' h
    simp only [buildTableGo] at h
    by_cases hg : y % 10 = 0 ∧ ctx k = true
    · rw [if_pos hg] at h
      exact absurd (congrArg Prod.fst h) (by simp)
    · rw [if_neg hg] at h
      rcases hrec : buildTableGo ctx img width height rem
          (if y % 10 = 0 then k + 1 else k)
          (meshRowGo img width height y width v 0).2 (y + 1) with ⟨res, k2⟩
      rw [hrec] at h
      match res, h with
      | .error e, h =>
        exact absurd (congrArg Prod.fst h) (by simp)
      | .ok rest, h =>
        have hrows : Except.ok (List.map mcellToCell
            (meshRowGo img width height y width v 0).1 :: rest) =
            (Except.ok rows : Except GoErr _) := congrArg Prod.fst h
        simp only [Except.ok.injEq] at hrows
        have hrest := ih (if y % 10 = 0 then k + 1 else k)
          (meshRowGo img width height y width v 0).2 (y + 1) rest k2 hrec
        simp only [meshRowsGo]
        rw [← hrows, hrest]
        simp

/-- Splitting a chained-good list around one cell gives that cell's
`CellOK` facts relative to everything emitted before it. -/
lemma GoodCells.split_ok (img : Img) (width height : Nat) :
    ∀ pre prev (m : MCell) suf,
    GoodCells img width height prev (pre ++ m :: suf) →
    CellOK img width height (prev ++ pre) m := by
  intro pre
  induction pre with
  | nil =>
    intro prev m suf hg
    simpa using hg.1
  | cons a pre ih =>
    intro prev m suf hg
    have := ih (prev ++ [a]) m suf hg.2
    simpa [List.append_assoc] using this

/-- C1: for every pixel grid of positive width and height and an
uncancelled context, `buildTable` succeeds with the meshing pass's rows,
and the emitted cells' rectangles partition the grid: they lie inside
it, every pixel is covered, and no pixel lies in the rectangles of two
distinct cells. -/
theorem claim_C1_coverage_partition (ctx : Ctx) (img : Img)
    (width height k0 : Nat) (_hW : 1 ≤ width) (_hH : 1 ≤ height)
    (hctx : ∀ k, ctx k = false) :
    (buildTable ctx img width height k0).1 =
      .ok ((meshRows img width height).map (List.map mcellToCell)) ∧
    (∀ x y, x < width → y < height →
      ∃ m ∈ allCells img width height, cellRect m x y) ∧
    (∀ m ∈ allCells img width height, ∀ x y, cellRect m x y →
      x < width ∧ y < height) ∧
    (∀ m₁ ∈ allCells img width height, ∀ m₂ ∈ allCells img width height,
      ∀ x y, cellRect m₁ x y → cellRect m₂ x y → m₁ = m₂) := by
  obtain ⟨g1, g2, g3, g4, g5⟩ := meshRows_master img width height
  refine ⟨buildTableGo_uncancelled ctx img width height hctx height k0 _ 0,
    g5, ?_, ?_⟩
  · intro m hm x y hr
    obtain ⟨b1, b2, b3, b4, _, _⟩ :=
      GoodCells.mem_basic img width height _ [] g1 m hm
    obtain ⟨r1, r2, r3, r4⟩ := hr
    exact ⟨by omega, by omega⟩
  · intro m₁ h₁ m₂ h₂ x y hr₁ hr₂
    by_contra hne
    have hp := GoodCells.pairwise_disjoint img width height _ [] g1
    have hsym : Symmetric
        (fun a b : MCell => ∀ x' y', ¬ (cellRect a x' y' ∧ cellRect b x' y')) :=
      fun a b hab x' y' h => hab x' y' ⟨h.2, h.1⟩
    exact hp.forall hsym h₁ h₂ hne x y ⟨hr₁, hr₂⟩

/-- Witness for C1 at the concrete 2×2 four-color grid. -/
theorem claim_C1_coverage_partition_witness :
    ((1 : Nat) ≤ 2 ∧ (∀ k, ctxFree k = false)) ∧
    (∃ m ∈ allCells img2x2 2 2, cellRect m 1 1) :=
  ⟨⟨by decide, fun _ => rfl⟩,
    (claim_C1_coverage_partition ctxFree img2x2 2 2 0 (by decide) (by decide)
      (fun _ => rfl)).2.1 1 1 (by decide) (by decide)⟩

/-- C3: greedy maximality in the fixed order: each emitted cell carries
its anchor pixel's color; its width admits no rightward extension (the
next column is out of bounds, inside an earlier cell's rectangle, or
mismatched), and its height admits no downward extension (the next row
is out of bounds, or some pixel of the strip below is inside an earlier
cell's rectangle or mismatched — the scan in fact stops only on bound or
mismatch). -/
theorem claim_C3_greedy_maximality (img : Img) (width height : Nat)
    (pre suf : List MCell) (m : MCell)
    (hsplit : allCells img width height = pre ++ m :: suf) :
    m.c = colorAt img m.x m.y ∧
    (m.x + m.w = width ∨ (∃ p ∈ pre, cellRect p (m.x + m.w) m.y) ∨
      colorAt img (m.x + m.w) m.y ≠ m.c) ∧
    (m.y + m.h = height ∨ ∃ dx, dx < m.w ∧
      ((∃ p ∈ pre, cellRect p (m.x + dx) (m.y + m.h)) ∨
        colorAt img (m.x + dx) (m.y + m.h) ≠ m.c)) := by
  obtain ⟨g1, _, _, _, _⟩ := meshRows_master img width height
  have g1' : GoodCells img width height [] (pre ++ m :: suf) := by
    rw [← hsplit]
    exact g1
  have hok := GoodCells.split_ok img width height pre [] m suf g1'
  obtain ⟨_, _, _, _, _, hanchor, _, hwmax, hhmax⟩ := hok
  refine ⟨hanchor, by simpa using hwmax, ?_⟩
  rcases hhmax with h | ⟨dx, hdx, hne⟩
  · exact Or.inl h
  · exact Or.inr ⟨dx, hdx, Or.inr hne⟩

/-- Witness for C3 at the second cell of the 2×2 four-color grid. -/
theorem claim_C3_greedy_maximality_witness :
    (allCells img2x2 2 2 =
      [⟨0, 0, 1, 1, (0, 0, 0)⟩] ++ (⟨1, 0, 1, 1, (1, 0, 0)⟩ : MCell) ::
        [⟨0, 1, 1, 1, (0, 1, 0)⟩, ⟨1, 1, 1, 1, (1, 1, 0)⟩]) ∧
    (⟨1, 0, 1, 1, (1, 0, 0)⟩ : MCell).c = colorAt img2x2 1 0 :=
  ⟨by decide,
    (claim_C3_greedy_maximality img2x2 2 2 [⟨0, 0, 1, 1, (0, 0, 0)⟩]
      [⟨0, 1, 1, 1, (0, 1, 0)⟩, ⟨1, 1, 1, 1, (1, 1, 0)⟩]
      ⟨1, 0, 1, 1, (1, 0, 0)⟩ (by decide)).1⟩

/-- C4: every pixel inside an emitted cell's rectangle carries the color
of the cell's anchor pixel, and the emitted `Cell` renders exactly that
anchor color. -/
theorem claim_C4_monochromaticity (img : Img) (width height : Nat)
    (m : MCell) (hm : m ∈ allCells img width height) (x y : Nat)
    (hr : cellRect m x y) :
    colorAt img x y = colorAt img m.x m.y ∧
    mcellToCell m = ⟨cellColor (colorAt img m.x m.y), m.w, m.h⟩ := by
  obtain ⟨g1, _, _, _, _⟩ := meshRows_master img width height
  obtain ⟨_, _, _, _, hmono, hanchor⟩ :=
    GoodCells.mem_basic img width height _ [] g1 m hm
  constructor
  · rw [hmono x y hr, hanchor]
  · simp [mcellToCell, hanchor]

/-- Witness for C4 at the single cell of the uniform 5×5 grid. -/
theorem claim_C4_monochromaticity_witness :
    ((⟨0, 0, 5, 5, (7, 7, 7)⟩ : MCell) ∈ allCells constImg7 5 5) ∧
    mcellToCell ⟨0, 0, 5, 5, (7, 7, 7)⟩ = ⟨("#070707"), 5, 5⟩ := by
  have h := claim_C4_monochromaticity constImg7 5 5 ⟨0, 0, 5, 5, (7, 7, 7)⟩
    (by decide) 3 4 (by decide)
  exact ⟨by decide, by rw [h.2]; decide⟩

/-- C10: a successful `buildTable` returns one row list per pixel row
(length exactly the height, empty rows included), row `y` holding
precisely the meshed cells anchored on pixel row `y` in increasing
anchor-column order; on the uniform 5×5 grid this is five rows, the
first holding the single 5×5 cell and the remaining four empty. -/
theorem claim_C10_row_structure (ctx : Ctx) (img : Img)
    (width height k0 : Nat) (rows : List (List Cell)) (k' : Nat)
    (hok : buildTable ctx img width height k0 = (.ok rows, k')) :
    rows.length = height ∧
    rows = (meshRows img width height).map (List.map mcellToCell) ∧
    (meshRows img width height).length = height ∧
    (∀ y (hy : y < (meshRows img width height).length),
      (∀ m ∈ (meshRows img width height).get ⟨y, hy⟩, m.y = y) ∧
      List.Pairwise (fun a b => a.x < b.x)
        ((meshRows img width height).get ⟨y, hy⟩)) ∧
    (∀ m ∈ allCells img width height,
      ∃ hy : m.y < (meshRows img width height).length,
        m ∈ (meshRows img width height).get ⟨m.y, hy⟩) ∧
    (buildTable ctxFree constImg7 5 5 0).1 =
      .ok [[⟨("#070707"), 5, 5⟩], [], [], [], []] := by
  obtain ⟨g1, g2, g3, g4, g5⟩ := meshRows_master img width height
  have hrows := buildTableGo_ok_inv ctx img width height height k0 _ 0
    rows k' hok
  refine ⟨?_, hrows, g2, fun y hy => ⟨g3 y hy, g4 y hy⟩, ?_, by decide⟩
  · rw [hrows, List.length_map]
    exact g2
  · intro m hm
    obtain ⟨l, hl, hml⟩ := List.mem_flatten.mp hm
    obtain ⟨i, hgot⟩ := List.mem_iff_get.mp hl
    have hmy : m.y = i.1 := g3 i.1 i.2 m (by rw [hgot]; exact hml)
    refine ⟨by rw [hmy]; exact i.2, ?_⟩
    have hfin : (⟨m.y, by rw [hmy]; exact i.2⟩ :
        Fin (meshRows img width height).length) = ⟨i.1, i.2⟩ :=
      Fin.ext hmy
    rw [hfin, show (⟨i.1, i.2⟩ : Fin _) = i from rfl, hgot]
    exact hml

/-- Witness for C10 on the uniform 5×5 grid. -/
theorem claim_C10_row_structure_witness :
    buildTable ctxFree constImg7 5 5 0 =
      (.ok [[⟨("#070707"), 5, 5⟩], [], [], [], []], 1) ∧
    ([[Cell.mk ("#070707") 5 5], [], [], [], []] : List (List Cell)).length = 5 :=
  ⟨by decide,
    (claim_C10_row_structure ctxFree constImg7 5 5 0
      [[⟨("#070707"), 5, 5⟩], [], [], [], []] 1 (by decide)).1⟩

/-- Every delay the timeline builder uses is positive: positive declared
delays are kept, everything else becomes the 100 ms default. -/
lemma gifDelay_pos (g : GifData) (i : Nat) : 0 < gifDelay g i := by
  unfold gifDelay
  split
  · next h =>
    have hc : (0 : ℚ) < (g.delay.getD i 0 : ℚ) := by exact_mod_cast h.2
    positivity
  · norm_num

/-- A list-sum over `List.range` is the corresponding `Finset` sum. -/
lemma list_sum_range_map (f : Nat → ℚ) :
    ∀ n, ((List.range n).map f).sum = ∑ k ∈ Finset.range n, f k := by
  intro n
  induction n with
  | zero => simp
  | succ n ih =>
    rw [List.range_succ, List.map_append, List.sum_append,
      Finset.sum_range_succ, ih]
    simp

/-- The total of `n ≥ 1` normalized delays is positive. -/
lemma totalDelay_pos (g : GifData) (n : Nat) (hn : 1 ≤ n) :
    0 < totalDelay g n := by
  unfold totalDelay
  rw [list_sum_range_map]
  exact Finset.sum_pos (fun i _ => gifDelay_pos g i)
    ⟨0, Finset.mem_range.mpr (by omega)⟩

/-- Shape of the window list built by `buildAllKeyframes`'s loop: one
window per remaining frame, the first starting at the carried cumulative
percentage, the last ending at the cumulative total, and each window
starting exactly where the previous one ends. -/
lemma windowsGo_props (g : GifData) (total : ℚ) :
    ∀ rem i cum,
    (windowsGo g total rem i cum).length = rem ∧
    (0 < rem →
      ((windowsGo g total rem i cum).getD 0 (0, 0)).1 = cum / total * 100) ∧
    (0 < rem →
      ((windowsGo g total rem i cum).getD (rem - 1) (0, 0)).2 =
        (cum + ∑ k ∈ Finset.range rem, gifDelay g (i + k)) / total * 100) ∧
    (∀ j, j + 1 < rem →
      ((windowsGo g total rem i cum).getD (j + 1) (0, 0)).1 =
        ((windowsGo g total rem i cum).getD j (0, 0)).2) := by
  intro rem
  induction rem with
  | zero =>
    intro i cum
    exact ⟨rfl, fun h => absurd h (lt_irrefl 0), fun h => absurd h (lt_irrefl 0),
      fun j hj => absurd hj (by omega)⟩
  | succ rem ih =>
    intro i cum
    obtain ⟨l1, h0, hlast, hcontig⟩ := ih (i + 1) (cum + gifDelay g i)
    simp only [windowsGo]
    refine ⟨by simp [l1], fun _ => by simp, ?_, ?_⟩
    · intro _
      rcases Nat.eq_zero_or_pos rem with hz | hp
      · subst hz
        simp only [show (1 : Nat) - 1 = 0 from rfl, List.getD_cons_zero,
          zero_add, Finset.sum_range_one, Nat.add_zero]
      · have hidx : rem + 1 - 1 = (rem - 1) + 1 := by omega
        rw [hidx, List.getD_cons_succ, hlast hp]
        have hsum : ∑ k ∈ Finset.range (rem + 1), gifDelay g (i + k) =
            gifDelay g i + ∑ k ∈ Finset.range rem, gifDelay g (i + 1 + k) := by
          rw [Finset.sum_range_succ']
          have hcong : ∑ k ∈ Finset.range rem, gifDelay g (i + (k + 1)) =
              ∑ k ∈ Finset.range rem, gifDelay g (i + 1 + k) :=
            Finset.sum_congr rfl (fun k _ => by
              rw [show i + (k + 1) = i + 1 + k from by omega])
          rw [hcong, Nat.add_zero]
          exact add_comm _ _
        rw [hsum, add_assoc]
    · intro j hj
      match j with
      | 0 =>
        rw [List.getD_cons_succ, List.getD_cons_zero, h0 (by omega)]
      | Nat.succ j' =>
        rw [List.getD_cons_succ, List.getD_cons_succ]
        exact hcontig j' (by omega)

/-- Every window of the loop has positive length when the total is
positive. -/
lemma windowsGo_pos_len (g : GifData) (total : ℚ) (htotal : 0 < total) :
    ∀ rem i cum j, j < rem →
    ((windowsGo g total rem i cum).getD j (0, 0)).1 <
      ((windowsGo g total rem i cum).getD j (0, 0)).2 := by
  intro rem
  induction rem with
  | zero =>
    intro i cum j hj
    exact absurd hj (by omega)
  | succ rem ih =>
    intro i cum j hj
    simp only [windowsGo]
    match j with
    | 0 =>
      rw [List.getD_cons_zero]
      have hu : 0 < 100 / total := by positivity
      calc cum / total * 100 = cum * (100 / total) := by ring
        _ < (cum + gifDelay g i) * (100 / total) := by
            apply mul_lt_mul_of_pos_right _ hu
            linarith [gifDelay_pos g i]
        _ = (cum + gifDelay g i) / total * 100 := by ring
    | Nat.succ j' =>
      rw [List.getD_cons_succ]
      exact ih (i + 1) (cum + gifDelay g i) j' (by omega)

/-- Each keyframe list built by `buildAllKeyframes`'s loop is
`keyframesFor` applied to the matching visibility window. -/
lemma buildAllGo_windows (g : GifData) (total : ℚ) (frameCount : Nat) :
    ∀ rem i cum,
    (buildAllGo g total frameCount rem i cum).length = rem ∧
    (∀ j, j < rem →
      (buildAllGo g total frameCount rem i cum).getD j [] =
        keyframesFor (i + j) frameCount
          ((windowsGo g total rem i cum).getD j (0, 0)).1
          ((windowsGo g total rem i cum).getD j (0, 0)).2) := by
  intro rem
  induction rem with
  | zero =>
    intro i cum
    exact ⟨rfl, fun j hj => absurd hj (by omega)⟩
  | succ rem ih =>
    intro i cum
    obtain ⟨hl, hj⟩ := ih (i + 1) (cum + gifDelay g i)
    simp only [buildAllGo, windowsGo]
    refine ⟨by simp [hl], ?_⟩
    intro j hjlt
    match j with
    | 0 =>
      simp only [List.getD_cons_zero, Nat.add_zero]
    | Nat.succ j' =>
      simp only [List.getD_cons_succ]
      rw [hj j' (by omega), show i + (j' + 1) = i + 1 + j' from by omega]

/-- C5: Scenario D: delays [10, 0, 20] centiseconds are normalized to
[10, 10, 20] (the exact zero clamped to the 100 ms default), the total
is 40 centiseconds, and the visibility windows are [0%, 25%),
[25%, 50%), [50%, 100%), with the keyframes the source derives from
them. -/
theorem claim_C5_scenario_d :
    gifDelay gifDelays3 0 = 10 / 100 ∧
    gifDelay gifDelays3 1 = 10 / 100 ∧
    gifDelay gifDelays3 2 = 20 / 100 ∧
    totalDelay gifDelays3 3 = 40 / 100 ∧
    gifWindows gifDelays3 3 = [(0, 25), (25, 50), (50, 100)] ∧
    buildAllKeyframes 3 gifDelays3 =
      [[⟨0, 1⟩, ⟨25, 0⟩, ⟨100, 0⟩],
       [⟨0, 0⟩, ⟨25, 1⟩, ⟨50, 0⟩, ⟨100, 0⟩],
       [⟨0, 0⟩, ⟨50, 1⟩, ⟨100, 1⟩]] := by
  refine ⟨?_, ?_, ?_, ?_, ?_, ?_⟩ <;>
    norm_num [gifDelay, gifDelays3, totalDelay, gifWindows, windowsGo,
      buildAllKeyframes, buildAllGo, keyframesFor, List.range_succ]

/-- C6: for every animated source with `n ≥ 1` frames the visibility
windows partition the loop: one window per frame, the first starting at
0%, each next window starting exactly where the previous ends, every
window of positive length, the last ending exactly at 100%, and
`buildAllKeyframes` emitting precisely the keyframes derived from these
windows. -/
theorem claim_C6_timeline_partition (g : GifData) (n : Nat) (hn : 1 ≤ n) :
    (gifWindows g n).length = n ∧
    ((gifWindows g n).getD 0 (0, 0)).1 = 0 ∧
    ((gifWindows g n).getD (n - 1) (0, 0)).2 = 100 ∧
    (∀ j, j + 1 < n →
      ((gifWindows g n).getD (j + 1) (0, 0)).1 =
        ((gifWindows g n).getD j (0, 0)).2) ∧
    (∀ j, j < n →
      ((gifWindows g n).getD j (0, 0)).1 <
        ((gifWindows g n).getD j (0, 0)).2) ∧
    (buildAllKeyframes n g).length = n ∧
    (∀ j, j < n →
      (buildAllKeyframes n g).getD j [] =
        keyframesFor j n ((gifWindows g n).getD j (0, 0)).1
          ((gifWindows g n).getD j (0, 0)).2) := by
  have htot := totalDelay_pos g n hn
  obtain ⟨l1, h0, hlast, hcontig⟩ := windowsGo_props g (totalDelay g n) n 0 0
  obtain ⟨bl, bj⟩ := buildAllGo_windows g (totalDelay g n) n n 0 0
  have hbuild : buildAllKeyframes n g =
      buildAllGo g (totalDelay g n) n n 0 0 := by
    rw [buildAllKeyframes, if_neg (by omega)]
  refine ⟨l1, ?_, ?_, hcontig, windowsGo_pos_len g (totalDelay g n) htot n 0 0,
    ?_, ?_⟩
  · rw [show gifWindows g n = windowsGo g (totalDelay g n) n 0 0 from rfl,
      h0 (by omega)]
    simp
  · rw [show gifWindows g n = windowsGo g (totalDelay g n) n 0 0 from rfl,
      hlast (by omega)]
    have hsum : ∑ k ∈ Finset.range n, gifDelay g (0 + k) = totalDelay g n := by
      rw [totalDelay, list_sum_range_map]
      exact Finset.sum_congr rfl (fun k _ => by rw [Nat.zero_add])
    rw [hsum, zero_add, div_self (ne_of_gt htot)]
    norm_num
  · rw [hbuild]
    exact bl
  · intro j hjn
    rw [hbuild, bj j hjn, Nat.zero_add]
    rfl

/-- Witness for C6 at the Scenario D delays. -/
theorem claim_C6_timeline_partition_witness :
    (1 : Nat) ≤ 3 ∧ ((gifWindows gifDelays3 3).getD (3 - 1) (0, 0)).2 = 100 :=
  ⟨by decide, (claim_C6_timeline_partition gifDelays3 3 (by decide)).2.2.1⟩

/-- C2 counterexample: on the concrete 2-frame GIF `gifPrev2` (frame 0
opaque red with `Previous` disposal, frame 1 fully transparent), frame
1's resolved pixel keeps frame 0's red, while the claim's predicted
value — the transparent canvas composited with only frame 1's raw
pixels — is transparent: the two resolved grids differ. -/
theorem claim_C2_counterexample :
    ((compositeFrames gifPrev2).2.2.getD 1 emptyCanvas) 0 0 =
      ⟨255, 0, 0, 255⟩ ∧
    (drawOver 1 1 emptyCanvas clearFrame) 0 0 = ⟨0, 0, 0, 0⟩ ∧
    ((compositeFrames gifPrev2).2.2.getD 1 emptyCanvas) 0 0 ≠
      (drawOver 1 1 emptyCanvas clearFrame) 0 0 :=
  ⟨by decide, by decide, by decide⟩

/-- C2 amended: `Previous` disposal on frame 0 is a no-op (there is no
prior snapshot, `i > 0` fails), so for every 2-frame source with
`Previous` on frame 0, frame 1's resolved canvas equals frame 0's
snapshot — not the fully transparent canvas — composited source-over
with frame 1's own raw pixels. -/
theorem claim_C2_previous_disposal (cfgW cfgH : Nat) (f0 f1 : GifFrame)
    (delay : List Int) (drest : List Nat) :
    (compositeFrames ⟨cfgW, cfgH, [f0, f1], delay, 3 :: drest⟩).2.2 =
      [drawOver (canvasSize ⟨cfgW, cfgH, [f0, f1], delay, 3 :: drest⟩).1
          (canvasSize ⟨cfgW, cfgH, [f0, f1], delay, 3 :: drest⟩).2
          emptyCanvas f0,
        drawOver (canvasSize ⟨cfgW, cfgH, [f0, f1], delay, 3 :: drest⟩).1
          (canvasSize ⟨cfgW, cfgH, [f0, f1], delay, 3 :: drest⟩).2
          (drawOver (canvasSize ⟨cfgW, cfgH, [f0, f1], delay, 3 :: drest⟩).1
            (canvasSize ⟨cfgW, cfgH, [f0, f1], delay, 3 :: drest⟩).2
            emptyCanvas f0) f1] := by
  simp [compositeFrames, compositeLoop]

/-- C7 counterexample: on the concrete zero-canvas GIF `gifZero`,
`ConvertGIF` does return `InvalidDimensions`, but the run's event trace
already contains the `compositeFrames` run — the precondition violation
is not detected before the algorithmic core starts. -/
theorem claim_C7_counterexample :
    convertGIF ctxFree cfgEx idGifScaler gifZero [] =
      (.error .invalidDimensions, [], [Event.composite]) ∧
    ([Event.composite] : List Event) ≠ [] :=
  ⟨by decide, by decide⟩

/-- C7 amended: for every animated source with at least one frame whose
canvas size — after the fallback to the first raw frame's bounds — is
zero in either dimension (and a context not cancelled at entry),
`ConvertGIF` returns `InvalidDimensions` with nothing written; frame
compositing has already run by then (the trace records it), but no
per-frame meshing ever starts. -/
theorem claim_C7_invalid_dimensions (ctx : Ctx) (cfg : Config)
    (scaler : GifScaler) (g : GifData) (w0 : Writer)
    (hne : g.images ≠ []) (hctx0 : ctx 0 = false)
    (hzero : (canvasSize g).1 = 0 ∨ (canvasSize g).2 = 0) :
    convertGIF ctx cfg scaler g w0 =
      (.error .invalidDimensions, w0, [Event.composite]) := by
  have hzero' : (compositeFrames g).1 = 0 ∨ (compositeFrames g).2.1 = 0 :=
    hzero
  simp only [convertGIF, generateGIFHTML]
  rw [if_neg (by simpa using hne), if_neg (by simp [hctx0]), if_pos hzero']

/-- Witness for C7 (amended) at the concrete zero-canvas GIF. -/
theorem claim_C7_invalid_dimensions_witness :
    (gifZero.images ≠ [] ∧ ctxFree 0 = false ∧
      ((canvasSize gifZero).1 = 0 ∨ (canvasSize gifZero).2 = 0)) ∧
    convertGIF ctxFree cfgEx idGifScaler gifZero [] =
      (.error .invalidDimensions, [], [Event.composite]) :=
  ⟨⟨by simp [gifZero], rfl, by decide⟩,
    claim_C7_invalid_dimensions ctxFree cfgEx idGifScaler gifZero []
      (by simp [gifZero]) rfl (by decide)⟩

/-- Model of `generateHTML` either succeeds or leaves the writer untouched: the
only write is the final template execution on the success path. -/
lemma generateHTML_writer (ctx : Ctx) (cfg : Config) (scaler : Scaler)
    (src : SrcImage) (w0 : Writer) :
    (generateHTML ctx cfg scaler src w0).1 = .ok () ∨
    (generateHTML ctx cfg scaler src w0).2 = w0 := by
  unfold generateHTML
  split
  · exact Or.inr rfl
  · split
    · exact Or.inr rfl
    · split
      · exact Or.inl rfl
      · exact Or.inr rfl

/-- Model of `convertGIF` either succeeds or leaves the writer untouched. -/
lemma convertGIF_writer (ctx : Ctx) (cfg : Config) (gscaler : GifScaler)
    (g : GifData) (w1 : Writer) :
    (convertGIF ctx cfg gscaler g w1).1 = .ok () ∨
    (convertGIF ctx cfg gscaler g w1).2.1 = w1 := by
  unfold convertGIF generateGIFHTML
  split
  · exact Or.inr rfl
  · split
    · exact Or.inr rfl
    · dsimp only
      split
      · exact Or.inr rfl
      · split
        · exact Or.inl rfl
        · exact Or.inr rfl

/-- C9: whenever the static converter or the GIF converter returns the
cancellation error — the context observed cancelled at any poll point —
nothing has been written to the output writer. -/
theorem claim_C9_cancellation_no_output (ctx : Ctx) (cfg : Config)
    (scaler : Scaler) (gscaler : GifScaler) (src : SrcImage) (g : GifData)
    (w0 w1 : Writer) :
    ((generateHTML ctx cfg scaler src w0).1 = .error .cancelled →
      (generateHTML ctx cfg scaler src w0).2 = w0) ∧
    ((convertGIF ctx cfg gscaler g w1).1 = .error .cancelled →
      (convertGIF ctx cfg gscaler g w1).2.1 = w1) := by
  constructor
  · intro h
    rcases generateHTML_writer ctx cfg scaler src w0 with hok | hw
    · rw [h] at hok
      exact absurd hok (by simp)
    · exact hw
  · intro h
    rcases convertGIF_writer ctx cfg gscaler g w1 with hok | hw
    · rw [h] at hok
      exact absurd hok (by simp)
    · exact hw

/-- Witness for C9 at an immediately-cancelled context. -/
theorem claim_C9_cancellation_no_output_witness :
    (generateHTML ctxCancelled cfgEx idScaler srcImg2 []).1 =
      .error .cancelled ∧
    (generateHTML ctxCancelled cfgEx idScaler srcImg2 []).2 = [] ∧
    (convertGIF ctxCancelled cfgEx idGifScaler gifPrev2 []).2.1 = [] :=
  ⟨by decide,
    (claim_C9_cancellation_no_output ctxCancelled cfgEx idScaler idGifScaler
      srcImg2 gifPrev2 [] []).1 (by decide),
    (claim_C9_cancellation_no_output ctxCancelled cfgEx idScaler idGifScaler
      srcImg2 gifPrev2 [] []).2 (by decide)⟩

/-- C8 counterexample: with the obfuscation option enabled, two runs of
the (spec-modelled) five-argument `buildTable` on the same 1×1 opaque
red grid under two entropy streams produce different Layouts: the color
strings differ (hex case and property-name casing are randomised), so
the conversion is not deterministic as claimed. -/
theorem claim_C8_counterexample :
    buildTableObf img1x1 1 1 true entropy0 ≠
      buildTableObf img1x1 1 1 true entropy1 ∧
    buildTableObf img1x1 1 1 true entropy0 =
      [[⟨("BACKGROUND-COLOR:#ff0000ff"), 1, 1⟩]] ∧
    buildTableObf img1x1 1 1 true entropy1 =
      [[⟨("background-color:#FF0000FF"), 1, 1⟩]] :=
  ⟨by decide, by decide, by decide⟩

/-- Without obfuscation `formatColor` consumes no entropy and its output
depends only on the pixel. -/
lemma obfCells_entropy_free (img4 : Canvas) (e1 e2 : Entropy) :
    ∀ l pos1 pos2,
    (obfCells img4 false e1 l pos1).1 = (obfCells img4 false e2 l pos2).1 := by
  intro l
  induction l with
  | nil => intro pos1 pos2; rfl
  | cons m rest ih =>
    intro pos1 pos2
    simp only [obfCells, formatColor, if_pos rfl]
    exact congrArg _ (ih pos1 pos2)

/-- Without obfuscation the whole row fold is entropy-independent. -/
lemma obfRows_entropy_free (img4 : Canvas) (e1 e2 : Entropy) :
    ∀ ll pos1 pos2,
    (obfRows img4 false e1 ll pos1).1 = (obfRows img4 false e2 ll pos2).1 := by
  intro ll
  induction ll with
  | nil => intro pos1 pos2; rfl
  | cons row rest ih =>
    intro pos1 pos2
    simp only [obfRows]
    rw [obfCells_entropy_free img4 e1 e2 row pos1 pos2]
    exact congrArg _ (ih _ _)

/-- The spans of the formatted cells are the meshed spans, whatever the
obfuscation flag and entropy did to the color strings. -/
lemma obfCells_spans (img4 : Canvas) (obf : Bool) (e : Entropy) :
    ∀ l pos, ((obfCells img4 obf e l pos).1).map
      (fun cl => (cl.Colspan, cl.Rowspan)) = l.map (fun m => (m.w, m.h)) := by
  intro l
  induction l with
  | nil => intro pos; rfl
  | cons m rest ih =>
    intro pos
    simp only [obfCells, List.map_cons]
    rw [ih]

/-- Row-level version of `obfCells_spans`. -/
lemma obfRows_spans (img4 : Canvas) (obf : Bool) (e : Entropy) :
    ∀ ll pos, ((obfRows img4 obf e ll pos).1).map
      (List.map (fun cl => (cl.Colspan, cl.Rowspan))) =
      ll.map (List.map (fun m => (m.w, m.h))) := by
  intro ll
  induction ll with
  | nil => intro pos; rfl
  | cons row rest ih =>
    intro pos
    simp only [obfRows, List.map_cons]
    rw [ih, obfCells_spans]

/-- C8 amended: with obfuscation disabled the conversion is a pure
function of the input — two runs under any two entropy streams produce
identical Layouts including the color strings — and even with
obfuscation enabled the cell geometry (row structure, colspan, rowspan)
is identical across runs; only the obfuscated color strings may differ.
The static `buildTable` (convert.go) never consults entropy at all. -/
theorem claim_C8_determinism (img4 : Canvas) (width height : Nat)
    (e1 e2 : Entropy) :
    buildTableObf img4 width height false e1 =
      buildTableObf img4 width height false e2 ∧
    (∀ obf, (buildTableObf img4 width height obf e1).map
        (List.map (fun cl => (cl.Colspan, cl.Rowspan))) =
      (buildTableObf img4 width height obf e2).map
        (List.map (fun cl => (cl.Colspan, cl.Rowspan)))) := by
  constructor
  · exact obfRows_entropy_free img4 e1 e2 _ 0 0
  · intro obf
    rw [show buildTableObf img4 width height obf e1 =
        (obfRows img4 obf e1 (meshRows (rgbOf img4) width height) 0).1
        from rfl,
      show buildTableObf img4 width height obf e2 =
        (obfRows img4 obf e2 (meshRows (rgbOf img4) width height) 0).1
        from rfl,
      obfRows_spans, obfRows_spans]

end Pixcel

